import Mathlib

/-!
Verification of the QS-Formatter review/edit frontend and of the
spec-described extraction pipeline contracts.

The data model is embedded from `src/frontend/src/types.ts`; the editor
operations are embedded from the `PreviewEditor`, `QuestionCard` and
`AddQuestionForm` React components.  The backend pipeline (aligner,
confidence/flag engine) has no implementation under `src/`, so those parts
are modelled from the specification text and are marked as such.
-/

namespace QSFormatter

/-- `QuestionType` union from `types.ts`. -/
inductive QuestionType where
  | multiple_choice
  | integer
  | fill_ups
  | true_false
deriving DecidableEq, Repr

/-- `TableRenderMode` union from `types.ts`. -/
inductive TableRenderMode where
  | preserve
  | image
deriving DecidableEq, Repr

/-- `QuestionFlag` closed union from `types.ts` (eleven string literals). -/
inductive QuestionFlag where
  | missing_english
  | missing_hindi
  | missing_options
  | incomplete_options
  | ambiguous_numbering
  | complex_table
  | unmatched_images
  | low_confidence
  | count_mismatch
  | needs_image
  | options_need_images
deriving DecidableEq, Repr

/-- The string literal each `QuestionFlag` constructor stands for in `types.ts`. -/
def flagToString : QuestionFlag → String
  | .missing_english => "missing_english"
  | .missing_hindi => "missing_hindi"
  | .missing_options => "missing_options"
  | .incomplete_options => "incomplete_options"
  | .ambiguous_numbering => "ambiguous_numbering"
  | .complex_table => "complex_table"
  | .unmatched_images => "unmatched_images"
  | .low_confidence => "low_confidence"
  | .count_mismatch => "count_mismatch"
  | .needs_image => "needs_image"
  | .options_need_images => "options_need_images"

/-- `Option` interface from `types.ts` (named `OptionRec` here because `Option`
is taken by Lean's core type). -/
structure OptionRec where
  label : String
  english_text : String
  hindi_text : String
deriving DecidableEq, Repr

/-- `TableData` interface from `types.ts`. -/
structure TableData where
  id : String
  html : String
  is_complex : Bool
  render_mode : TableRenderMode
  image_path : Option String
deriving DecidableEq, Repr

/-- `ImageData` interface from `types.ts`. -/
structure ImageData where
  id : String
  filename : String
  path : String
  content_type : String
deriving DecidableEq, Repr

/-- `Question` interface from `types.ts`.  Confidence is a float in the source;
it is embedded as a rational. -/
structure Question where
  id : Nat
  english_text : String
  hindi_text : String
  question_type : QuestionType
  options : List OptionRec
  tables : List TableData
  images : List ImageData
  answer : Option String
  solution_english : Option String
  solution_hindi : Option String
  grading : Option String
  confidence : ℚ
  flags : List QuestionFlag
deriving DecidableEq, Repr

/-! ### PreviewEditor state operations (`src/unnamed/part_002`) -/

/-- `handleUpdateQuestion` in `PreviewEditor`:
`setQuestions(prev => prev.map(q => q.id === updated.id ? updated : q))`. -/
def handleUpdateQuestion (updated : Question) (qs : List Question) : List Question :=
  qs.map (fun q => if q.id = updated.id then updated else q)

/-- `handleDeleteQuestion` in `PreviewEditor` (after the user confirms):
`setQuestions(prev => prev.filter(q => q.id !== id))`. -/
def handleDeleteQuestion (id : Nat) (qs : List Question) : List Question :=
  qs.filter (fun q => q.id ≠ id)

/-- The `nextId` prop computed by `PreviewEditor` for `AddQuestionForm`:
`questions.length > 0 ? Math.max(...questions.map(q => q.id)) + 1 : 1`. -/
def nextId (qs : List Question) : Nat :=
  if 0 < qs.length then (qs.map (·.id)).foldl max 0 + 1 else 1

/-- `handleAddQuestion` in `PreviewEditor`:
`setQuestions(prev => [...prev, newQuestion])`. -/
def handleAddQuestion (q : Question) (qs : List Question) : List Question :=
  qs ++ [q]

/-- The three values of the `filter` state in `PreviewEditor`. -/
inductive FilterKind where
  | all
  | flagged
  | lowConfidence
deriving DecidableEq, Repr

/-- `filteredQuestions` in `PreviewEditor`: flagged keeps records with
`q.flags.length > 0`, low-confidence keeps records with `q.confidence < 0.7`,
`all` keeps everything. -/
def filteredQuestions (filter : FilterKind) (qs : List Question) : List Question :=
  qs.filter (fun q =>
    match filter with
    | .flagged => q.flags.length > 0
    | .lowConfidence => decide (q.confidence < 7/10)
    | .all => true)

/-! ### Option-list operations (`QuestionCard` in `src/unnamed/part_001` and
`AddQuestionForm.tsx`; the two components contain the same code) -/

/-- The label table `['A','B','C','D','E','F','G','H']` used by
`handleAddOption` and `handleRemoveOption`. -/
def optionLabels : List String := ["A", "B", "C", "D", "E", "F", "G", "H"]

/-- The template-literal fallback label `O${n}`. -/
def fallbackLabel (n : Nat) : String := "O" ++ Nat.repr n

/-- The label the code assigns to position `i`:
`labels[i] || `O${i + 1}``  (undefined lookup falls through to the fallback). -/
def labelFor (i : Nat) : String := (optionLabels.get? i).getD (fallbackLabel (i + 1))

/-- `handleAddOption`: appends a blank option labelled
`labels[options.length] || `O${options.length + 1}``. -/
def handleAddOption (opts : List OptionRec) : List OptionRec :=
  opts ++ [{ label := labelFor opts.length, english_text := "", hindi_text := "" }]

/-- Index-carrying helper for the relabelling map
`newOptions.map((opt, i) => ({ ...opt, label: labels[i] || `O${i + 1}` }))`. -/
def relabelAux (i : Nat) : List OptionRec → List OptionRec
  | [] => []
  | o :: os => { o with label := labelFor i } :: relabelAux (i + 1) os

/-- The relabelling map of `handleRemoveOption`, started at position 0. -/
def relabelOptions (opts : List OptionRec) : List OptionRec :=
  relabelAux 0 opts

/-- `handleRemoveOption`: returns unchanged when
`options.length <= 2` ("Keep at least 2 options"); otherwise removes the
option at `index` (`filter((_, i) => i !== index)`) and relabels by position. -/
def handleRemoveOption (idx : Nat) (opts : List OptionRec) : List OptionRec :=
  if opts.length ≤ 2 then opts
  else relabelOptions (opts.eraseIdx idx)

/-! ### `AddQuestionForm.handleSubmit` -/

/-- The `formData` state of `AddQuestionForm`. -/
structure AddFormData where
  english_text : String
  hindi_text : String
  question_type : QuestionType
  answer : String
  solution_english : String
  solution_hindi : String
  grading : String
deriving DecidableEq, Repr

/-- JavaScript's `String.prototype.trim()`: strip whitespace from both ends
of the string (embedded structurally over the character list). -/
def jsTrim (s : String) : String :=
  String.mk (((s.data.dropWhile Char.isWhitespace).reverse.dropWhile
    Char.isWhitespace).reverse)

/-- The truthiness test `o.english_text || o.hindi_text` used by the
submit validation and by the final option filter. -/
def optionHasText (o : OptionRec) : Bool :=
  o.english_text ≠ "" || o.hindi_text ≠ ""

/-- The per-option image step of `handleSubmit`: when an image was selected
for the option's label and its upload succeeded (`some filename`), the code
appends `[Image: filename]` to the option's English text (with a separating
space when the text is non-empty); otherwise the option is unchanged. -/
def applyOptionImage (upload : Option String) (o : OptionRec) : OptionRec :=
  match upload with
  | none => o
  | some filename =>
      { o with english_text :=
          o.english_text ++ (if o.english_text ≠ "" then " " else "")
            ++ "[Image: " ++ filename ++ "]" }

/-- `handleSubmit` of `AddQuestionForm`.  Returns `none` when validation
rejects (both texts blank after trimming, or a multiple-choice question with
fewer than 2 options carrying text), otherwise the constructed `Question`.
`optionUpload` gives, per option label, the filename of a successfully
uploaded option image (`none` covers both "no image selected" and a failed
upload); `questionUploads` is the list of successfully uploaded question
images. -/
def handleSubmit (form : AddFormData) (options : List OptionRec)
    (questionUploads : List ImageData) (optionUpload : String → Option String)
    (nextId : Nat) : Option Question :=
  if jsTrim form.english_text = "" ∧ jsTrim form.hindi_text = "" then none
  else if form.question_type = .multiple_choice ∧
      (options.filter optionHasText).length < 2 then none
  else
    let updatedOptions := options.map (fun o => applyOptionImage (optionUpload o.label) o)
    some
      { id := nextId
        english_text := form.english_text
        hindi_text := form.hindi_text
        question_type := form.question_type
        options := updatedOptions.filter optionHasText
        tables := []
        images := questionUploads
        answer := if form.answer ≠ "" then some form.answer else none
        solution_english := if form.solution_english ≠ "" then some form.solution_english else none
        solution_hindi := if form.solution_hindi ≠ "" then some form.solution_hindi else none
        grading := if form.grading ≠ "" then some form.grading else none
        confidence := 1
        flags := [] }

/-! ### Spec-modelled pipeline parts

The repository's backend pipeline (`parser.py`, `aligner.py`, the
confidence/flag engine) is not present under `src/`; only the prompt text and
the frontend consumers are.  The definitions below are therefore modelled from
the specification text. -/

/-- Modelled from the spec: `MonolingualQuestionRecord` (spec section 3) as far
as the alignment claims need it; the backend Field Extractor that produces it
is absent from `src/`. -/
structure MonoRecord where
  sequence_index : Nat
  declared_ordinal : Option Nat
  text : String
  options : List OptionRec
deriving DecidableEq, Repr

/-- Modelled from the spec: `BilingualOption = {label, english_text (default
""), hindi_text (default "")}` (spec section 4.5). -/
structure BilingualOption where
  label : String
  english_text : String
  hindi_text : String
deriving DecidableEq, Repr

/-- Modelled from the spec: the `BilingualQuestionRecord` fields the alignment
claims need (spec section 3); the backend Aligner that produces it is absent
from `src/`. -/
structure BilingualRecord where
  id : Nat
  english : Option MonoRecord
  hindi : Option MonoRecord
  merged_options : List BilingualOption
  flags : List QuestionFlag
deriving DecidableEq, Repr

/-- Modelled from the spec: the Aligner's output, records plus the job-level
flag set (`count_mismatch` is "applied to the whole job", spec section 4.5). -/
structure AlignOutput where
  records : List BilingualRecord
  jobFlags : List QuestionFlag
deriving DecidableEq, Repr

/-- Modelled from the spec: position-by-position option merge with the missing
side defaulted to the empty string (spec section 4.5). -/
def mergeOptions (en hi : List OptionRec) : List BilingualOption :=
  (List.range (max en.length hi.length)).map (fun i =>
    { label := (((en.get? i).map (·.label)).orElse (fun _ => (hi.get? i).map (·.label))).getD ""
      english_text := ((en.get? i).map (·.english_text)).getD ""
      hindi_text := ((hi.get? i).map (·.hindi_text)).getD "" })

/-- Modelled from the spec: per-record flags of the Aligner — "if one side's
text is empty or absent, emit `missing_english` or `missing_hindi`", and
`incomplete_options` "if the option-count differs between languages for that
question" (spec section 4.5). -/
def recordFlags (en hi : Option MonoRecord) : List QuestionFlag :=
  (if ((en.map (·.text)).getD "") = "" then [QuestionFlag.missing_english] else []) ++
    (if ((hi.map (·.text)).getD "") = "" then [QuestionFlag.missing_hindi] else []) ++
    (match en, hi with
     | some e, some h =>
         if e.options.length ≠ h.options.length then [QuestionFlag.incomplete_options] else []
     | _, _ => [])

/-- Modelled from the spec: the Bilingual Aligner (spec section 4.5), absent
from `src/`.  Strict index pairing; position `i` of English pairs with
position `i` of Hindi; every position beyond the shorter sequence is emitted
single-language; `id` is 1-based output order; `count_mismatch` is applied to
the whole job when lengths differ. -/
def align (en hi : List MonoRecord) : AlignOutput :=
  { records := (List.range (max en.length hi.length)).map (fun i =>
      { id := i + 1
        english := en.get? i
        hindi := hi.get? i
        merged_options := mergeOptions (((en.get? i).map (·.options)).getD [])
          (((hi.get? i).map (·.options)).getD [])
        flags := recordFlags (en.get? i) (hi.get? i) })
    jobFlags := if en.length ≠ hi.length then [QuestionFlag.count_mismatch] else [] }

/-- Modelled from the spec: the Segmenter's boundary-detection rules
(spec section 4.2). -/
inductive BoundaryRule where
  | numberedLead
  | heading
  | optionDensity
deriving DecidableEq, Repr

/-- Modelled from the spec: boundary confidence — rule 1 gives 1.0, rule 2
gives 0.8, rule 3 gives 0.5 (spec section 4.2). -/
def boundaryConfidence : BoundaryRule → ℚ
  | .numberedLead => 1
  | .heading => 8/10
  | .optionDensity => 1/2

/-- Modelled from the spec: the fixed multiplicative penalty of each flag in
the Confidence & Flag Engine (spec section 4.6); flags outside the penalty
table leave confidence unchanged. -/
def penalty : QuestionFlag → ℚ
  | .missing_options => 7/10
  | .missing_english => 8/10
  | .missing_hindi => 8/10
  | .ambiguous_numbering => 85/100
  | .complex_table => 9/10
  | .incomplete_options => 9/10
  | .count_mismatch => 75/100
  | _ => 1

/-- Modelled from the spec: "Final confidence is clamped to [0,1]"
(spec section 4.6). -/
def clamp01 (x : ℚ) : ℚ := min 1 (max 0 x)

/-- Modelled from the spec: the Confidence & Flag Engine's score — start at
the boundary confidence of the anchor language, compound the penalties of the
record's flags, clamp to [0,1] (spec section 4.6); the engine itself is absent
from `src/`. -/
def computeConfidence (base : ℚ) (flags : List QuestionFlag) : ℚ :=
  clamp01 (flags.foldl (fun c f => c * penalty f) base)

/-- The seven flags claim C7 lists as penalized. -/
def penalizedFlags : List QuestionFlag :=
  [.missing_options, .missing_english, .missing_hindi, .ambiguous_numbering,
   .complex_table, .incomplete_options, .count_mismatch]

/-! ### Property definitions -/

/-- The order-preservation invariant: the ids of the list are exactly
`1, 2, …, length` in order (`records[i].id == i+1`). -/
@[reducible] def idsSequential (qs : List Question) : Prop :=
  qs.map (·.id) = List.range' 1 qs.length

/-- The labels the option-editing code assigns: the label at position `i` is
`labelFor i`. -/
@[reducible] def codeLabels (opts : List OptionRec) : Prop :=
  opts.map (·.label) = (List.range opts.length).map labelFor

/-- The alphabet, for the dense-prefix property. -/
def alphaLabels : List String :=
  ["A", "B", "C", "D", "E", "F", "G", "H", "I", "J", "K", "L", "M",
   "N", "O", "P", "Q", "R", "S", "T", "U", "V", "W", "X", "Y", "Z"]

/-- The labels form a dense prefix of the alphabet assigned by position. -/
@[reducible] def densePrefixAlpha (opts : List OptionRec) : Prop :=
  opts.map (·.label) = alphaLabels.take opts.length

/-- The labels of the list are pairwise distinct. -/
@[reducible] def pairwiseUniqueLabels (opts : List OptionRec) : Prop :=
  (opts.map (·.label)).Nodup

/-- The texts of an option, used to state that relabelling touches nothing
but the label. -/
def optText (o : OptionRec) : String × String :=
  (o.english_text, o.hindi_text)

/-! ### Concrete sample data for witnesses and counterexamples -/

/-- A sample question with a given id. -/
def mkQ (n : Nat) : Question :=
  { id := n
    english_text := "What is the capital of France?"
    hindi_text := ""
    question_type := .multiple_choice
    options := []
    tables := []
    images := []
    answer := none
    solution_english := none
    solution_hindi := none
    grading := none
    confidence := 1
    flags := [] }

/-- A sample option with a given label. -/
def mkOpt (l : String) : OptionRec :=
  { label := l, english_text := "x", hindi_text := "" }

/-- An eight-option list labelled exactly as the editor labels eight options. -/
def opts8 : List OptionRec :=
  [mkOpt "A", mkOpt "B", mkOpt "C", mkOpt "D", mkOpt "E", mkOpt "F", mkOpt "G", mkOpt "H"]

/-- A two-option list labelled as the editor labels two options. -/
def opts2 : List OptionRec := [mkOpt "A", mkOpt "B"]

/-- A three-option list labelled as the editor labels three options. -/
def opts3 : List OptionRec := [mkOpt "A", mkOpt "B", mkOpt "C"]

/-! ### Decimal representation: `Nat.repr` is injective

Needed to show the fallback labels `O9, O10, …` are pairwise distinct. -/

/-- The decimal digit list of `n`, most significant first, as a clean
recursion mirroring what `Nat.toDigitsCore` computes. -/
def decChars (n : Nat) : List Char :=
  if n < 10 then [Nat.digitChar n]
  else decChars (n / 10) ++ [Nat.digitChar (n % 10)]
termination_by n
decreasing_by exact Nat.div_lt_self (by omega) (by omega)

theorem decChars_eq (n : Nat) :
    decChars n =
      if n < 10 then [Nat.digitChar n]
      else decChars (n / 10) ++ [Nat.digitChar (n % 10)] := by
  rw [decChars]

theorem decChars_ne_nil (n : Nat) : decChars n ≠ [] := by
  rw [decChars_eq]
  split <;> simp

theorem toDigitsCore_eq_decChars :
    ∀ (fuel n : Nat) (acc : List Char), n < fuel →
      Nat.toDigitsCore 10 fuel n acc = decChars n ++ acc := by
  intro fuel
  induction fuel with
  | zero => intro n acc h; omega
  | succ f ih =>
    intro n acc h
    rw [Nat.toDigitsCore]
    by_cases h10 : n / 10 = 0
    · have hn : n < 10 := by omega
      have hmod : n % 10 = n := Nat.mod_eq_of_lt hn
      rw [decChars_eq]
      simp [h10, hn, hmod]
    · have hn : ¬ n < 10 := by omega
      rw [decChars_eq]
      simp only [hn, if_false, h10, if_false]
      rw [ih (n / 10) _ (by omega)]
      simp

theorem repr_eq_decChars (n : Nat) : Nat.repr n = String.mk (decChars n) := by
  rw [Nat.repr, Nat.toDigits, toDigitsCore_eq_decChars (n + 1) n [] (by omega)]
  simp [List.asString]

theorem digitChar_inj_lt :
    ∀ a < 10, ∀ b < 10, Nat.digitChar a = Nat.digitChar b → a = b := by decide

theorem decChars_inj (m : Nat) : ∀ n, decChars m = decChars n → m = n := by
  induction m using Nat.strong_induction_on with
  | _ m ih =>
    intro n h
    by_cases hm : m < 10 <;> by_cases hn : n < 10
    · rw [decChars_eq m, decChars_eq n] at h
      simp only [hm, hn, if_true, List.cons.injEq] at h
      exact digitChar_inj_lt m hm n hn h.1
    · rw [decChars_eq m, decChars_eq n] at h
      simp only [hm, hn, if_true, if_false] at h
      have hlen := congrArg List.length h
      simp only [List.length_append, List.length_cons, List.length_nil] at hlen
      have hnil : decChars (n / 10) = [] := List.length_eq_zero.mp (by omega)
      exact absurd hnil (decChars_ne_nil _)
    · rw [decChars_eq m, decChars_eq n] at h
      simp only [hm, hn, if_true, if_false] at h
      have hlen := congrArg List.length h
      simp only [List.length_append, List.length_cons, List.length_nil] at hlen
      have hnil : decChars (m / 10) = [] := List.length_eq_zero.mp (by omega)
      exact absurd hnil (decChars_ne_nil _)
    · rw [decChars_eq m, decChars_eq n] at h
      simp only [hm, hn, if_false] at h
      obtain ⟨h1, h2⟩ := List.append_inj' h (by simp)
      have e1 : m / 10 = n / 10 :=
        ih (m / 10) (Nat.div_lt_self (by omega) (by omega)) (n / 10) h1
      simp only [List.cons.injEq] at h2
      have e2 : m % 10 = n % 10 :=
        digitChar_inj_lt (m % 10) (Nat.mod_lt m (by omega)) (n % 10) (Nat.mod_lt n (by omega)) h2.1
      omega

theorem natRepr_injective : Function.Injective Nat.repr := by
  intro m n h
  rw [repr_eq_decChars, repr_eq_decChars] at h
  exact decChars_inj m n (by injection h)

/-! ### Injectivity of the positional label function -/

theorem labelFor_of_ge (i : Nat) (h : 8 ≤ i) :
    labelFor i = "O" ++ Nat.repr (i + 1) := by
  have : optionLabels.get? i = none := by
    rw [List.get?_eq_none]
    simp [optionLabels]
    omega
  rw [labelFor, this, Option.getD_none, fallbackLabel]

theorem labelFor_lt_inj :
    ∀ i < 8, ∀ j < 8, labelFor i = labelFor j → i = j := by decide

theorem labelFor_lt_length (i : Nat) (h : i < 8) : (labelFor i).length = 1 := by
  interval_cases i <;> decide

theorem repr_length_pos (n : Nat) : 0 < (Nat.repr n).length := by
  rw [repr_eq_decChars]
  have := decChars_ne_nil n
  cases hd : decChars n with
  | nil => exact absurd hd this
  | cons c cs => simp [hd, String.length]

theorem labelFor_injective : Function.Injective labelFor := by
  intro i j h
  by_cases hi : i < 8 <;> by_cases hj : j < 8
  · exact labelFor_lt_inj i hi j hj h
  · exfalso
    rw [labelFor_of_ge j (by omega)] at h
    have h1 : (labelFor i).length = 1 := labelFor_lt_length i hi
    have h2 := repr_length_pos (j + 1)
    rw [h, String.length_append] at h1
    have hO : ("O" : String).length = 1 := rfl
    omega
  · exfalso
    rw [labelFor_of_ge i (by omega)] at h
    have h1 : (labelFor j).length = 1 := labelFor_lt_length j hj
    have h2 := repr_length_pos (i + 1)
    rw [← h, String.length_append] at h1
    have hO : ("O" : String).length = 1 := rfl
    omega
  · rw [labelFor_of_ge i (by omega), labelFor_of_ge j (by omega)] at h
    have hd : ("O" ++ Nat.repr (i + 1)).data = ("O" ++ Nat.repr (j + 1)).data := by rw [h]
    simp only [String.data_append] at hd
    have := List.append_inj_right hd (by rfl)
    have : Nat.repr (i + 1) = Nat.repr (j + 1) := by
      apply String.ext
      exact this
    have := natRepr_injective this
    omega

/-! ### Helper lemmas on the option-label machinery -/

theorem relabelAux_map_label (i : Nat) (os : List OptionRec) :
    (relabelAux i os).map (·.label) = (List.range' i os.length).map labelFor := by
  induction os generalizing i with
  | nil => simp [relabelAux]
  | cons o os ih => simp [relabelAux, List.range'_succ, ih]

theorem relabelAux_map_optText (i : Nat) (os : List OptionRec) :
    (relabelAux i os).map optText = os.map optText := by
  induction os generalizing i with
  | nil => rfl
  | cons o os ih => simp [relabelAux, optText, ih]

theorem relabelAux_length (i : Nat) (os : List OptionRec) :
    (relabelAux i os).length = os.length := by
  induction os generalizing i with
  | nil => rfl
  | cons o os ih => simp [relabelAux, ih]

theorem codeLabels_relabel (os : List OptionRec) : codeLabels (relabelOptions os) := by
  show (relabelOptions os).map (·.label) = _
  rw [relabelOptions, relabelAux_map_label, relabelAux_length, List.range_eq_range']

theorem codeLabels_nodup (os : List OptionRec) (h : codeLabels os) :
    pairwiseUniqueLabels os := by
  show (os.map (·.label)).Nodup
  rw [h]
  exact List.Nodup.map labelFor_injective (List.nodup_range _)

theorem dense_of_codeLabels (os : List OptionRec) (h : codeLabels os)
    (hl : os.length ≤ 8) : densePrefixAlpha os := by
  show os.map (·.label) = alphaLabels.take os.length
  rw [h]
  generalize os.length = n at hl ⊢
  interval_cases n <;> decide

theorem codeLabels_add (os : List OptionRec) (h : codeLabels os) :
    codeLabels (handleAddOption os) := by
  show (handleAddOption os).map (·.label) = _
  rw [handleAddOption, List.map_append]
  have h' : os.map (·.label) = (List.range os.length).map labelFor := h
  simp [h', List.range_succ]

theorem codeLabels_remove (os : List OptionRec) (idx : Nat) (h : codeLabels os) :
    codeLabels (handleRemoveOption idx os) := by
  rw [handleRemoveOption]
  split
  · exact h
  · exact codeLabels_relabel _

/-! ### Helper lemmas for the id invariant -/

theorem foldl_max_range' (n : Nat) : (List.range' 1 n).foldl max 0 = n := by
  induction n with
  | zero => rfl
  | succ n ih =>
    rw [List.range'_concat, List.foldl_append, ih]
    simp
    omega

theorem nextId_eq (qs : List Question) (h : idsSequential qs) :
    nextId qs = qs.length + 1 := by
  rw [nextId]
  by_cases hl : 0 < qs.length
  · rw [if_pos hl]
    have h' : qs.map (·.id) = List.range' 1 qs.length := h
    rw [h', foldl_max_range']
  · have h0 : qs.length = 0 := by omega
    rw [if_neg hl, h0]

/-! ### Claims C1, C2, C3, C8, C9 -/

/-- Claim C1, counterexample: deleting question 1 from a two-question list
with ids 1, 2 leaves a list whose only record has id 2 at position 0, so
`records[i].id == i+1` does not survive the delete operation. -/
theorem C1_counterexample :
    idsSequential [mkQ 1, mkQ 2] ∧
      ¬ idsSequential (handleDeleteQuestion 1 [mkQ 1, mkQ 2]) := by
  constructor
  · decide
  · decide

/-- Claim C1 (amended): on a list satisfying `records[i].id == i+1`, the
update operation preserves every id in place (hence the invariant), adding a
question with the computed `nextId` preserves the invariant, and deletion
keeps the surviving records' ids in order — hence strictly increasing — but
not the position-plus-one identity. -/
theorem C1_amended (qs : List Question) (u q0 : Question) (d : Nat)
    (h : idsSequential qs) :
    (handleUpdateQuestion u qs).map (·.id) = qs.map (·.id) ∧
    idsSequential (handleAddQuestion { q0 with id := nextId qs } qs) ∧
    ((handleDeleteQuestion d qs).map (·.id)).Sublist (qs.map (·.id)) ∧
    List.Pairwise (· < ·) ((handleDeleteQuestion d qs).map (·.id)) := by
  have h' : qs.map (·.id) = List.range' 1 qs.length := h
  refine ⟨?_, ?_, ?_, ?_⟩
  · rw [handleUpdateQuestion, List.map_map]
    apply List.map_congr_left
    intro q _
    by_cases hid : q.id = u.id
    · simp [hid]
    · simp [hid]
  · show (handleAddQuestion _ qs).map (·.id) = List.range' 1 (handleAddQuestion _ qs).length
    rw [handleAddQuestion, List.map_append, List.length_append, h', nextId_eq qs h]
    simp [List.range'_concat, Nat.add_comm]
  · exact (List.filter_sublist _).map _
  · apply List.Pairwise.sublist ((List.filter_sublist _).map _)
    rw [h']
    exact List.pairwise_lt_range' 1 qs.length

/-- Witness for C1_amended at a concrete two-question list. -/
theorem C1_witness :
    (handleUpdateQuestion (mkQ 1) [mkQ 1, mkQ 2]).map (·.id) = [mkQ 1, mkQ 2].map (·.id) ∧
    idsSequential (handleAddQuestion { mkQ 1 with id := nextId [mkQ 1, mkQ 2] } [mkQ 1, mkQ 2]) ∧
    ((handleDeleteQuestion 2 [mkQ 1, mkQ 2]).map (·.id)).Sublist ([mkQ 1, mkQ 2].map (·.id)) ∧
    List.Pairwise (· < ·) ((handleDeleteQuestion 2 [mkQ 1, mkQ 2]).map (·.id)) :=
  C1_amended [mkQ 1, mkQ 2] (mkQ 1) (mkQ 1) 2 (by decide)

/-- Claim C2, counterexample: the editor's own labelling of an eight-option
list is the dense prefix A…H, but adding a ninth option appends label "O9"
(the fallback `O${i+1}`), not the ninth alphabet letter "I", so the labels of
the grown list are not a dense prefix of the alphabet. -/
theorem C2_counterexample :
    densePrefixAlpha opts8 ∧ ¬ densePrefixAlpha (handleAddOption opts8) := by
  constructor
  · decide
  · decide

/-- Claim C2 (amended): after add-option or remove-option on a list labelled
the way the editor labels positions (A–H for positions 0–7, fallback
`O{i+1}` beyond), the labels still follow that positional scheme and are
pairwise unique; they form a dense prefix of the alphabet whenever the list
has at most 8 options; and removal leaves the surviving options' texts in
their original relative order (relabelling from A touches only labels). -/
theorem C2_amended (opts : List OptionRec) (idx : Nat) (h : codeLabels opts) :
    codeLabels (handleAddOption opts) ∧
    pairwiseUniqueLabels (handleAddOption opts) ∧
    ((handleAddOption opts).length ≤ 8 → densePrefixAlpha (handleAddOption opts)) ∧
    codeLabels (handleRemoveOption idx opts) ∧
    pairwiseUniqueLabels (handleRemoveOption idx opts) ∧
    ((handleRemoveOption idx opts).length ≤ 8 → densePrefixAlpha (handleRemoveOption idx opts)) ∧
    (handleRemoveOption idx opts).map optText =
      (if opts.length ≤ 2 then opts else opts.eraseIdx idx).map optText := by
  have hadd := codeLabels_add opts h
  have hrem := codeLabels_remove opts idx h
  refine ⟨hadd, codeLabels_nodup _ hadd, fun hl => dense_of_codeLabels _ hadd hl,
    hrem, codeLabels_nodup _ hrem, fun hl => dense_of_codeLabels _ hrem hl, ?_⟩
  by_cases hc : opts.length ≤ 2
  · simp [handleRemoveOption, hc]
  · simp [handleRemoveOption, hc, relabelOptions, relabelAux_map_optText]

/-- Witness for C2_amended at a concrete three-option list. -/
theorem C2_witness :
    codeLabels (handleAddOption opts3) ∧
    pairwiseUniqueLabels (handleAddOption opts3) ∧
    densePrefixAlpha (handleAddOption opts3) ∧
    codeLabels (handleRemoveOption 0 opts3) ∧
    pairwiseUniqueLabels (handleRemoveOption 0 opts3) ∧
    densePrefixAlpha (handleRemoveOption 0 opts3) ∧
    (handleRemoveOption 0 opts3).map optText =
      (if opts3.length ≤ 2 then opts3 else opts3.eraseIdx 0).map optText := by
  obtain ⟨h1, h2, h3, h4, h5, h6, h7⟩ := C2_amended opts3 0 (by decide)
  exact ⟨h1, h2, h3 (by decide), h4, h5, h6 (by decide), h7⟩

/-- Claim C3: the low-confidence selection keeps exactly the records with
confidence strictly below 0.7, the flagged selection keeps exactly the
records with a non-empty flag list, and both preserve the records' order
(the selections are sublists of the input). -/
theorem C3_filters (qs : List Question) (q : Question) :
    (filteredQuestions .lowConfidence qs).Sublist qs ∧
    (filteredQuestions .flagged qs).Sublist qs ∧
    (q ∈ filteredQuestions .lowConfidence qs ↔ q ∈ qs ∧ q.confidence < 7/10) ∧
    (q ∈ filteredQuestions .flagged qs ↔ q ∈ qs ∧ q.flags ≠ []) := by
  refine ⟨List.filter_sublist _, List.filter_sublist _, ?_, ?_⟩
  · simp [filteredQuestions]
  · simp [filteredQuestions, List.length_pos]

/-- Witness for C3_filters at a concrete list. -/
theorem C3_witness :
    (filteredQuestions .lowConfidence [mkQ 1]).Sublist [mkQ 1] ∧
    (filteredQuestions .flagged [mkQ 1]).Sublist [mkQ 1] ∧
    (mkQ 1 ∈ filteredQuestions .lowConfidence [mkQ 1] ↔
      mkQ 1 ∈ [mkQ 1] ∧ (mkQ 1).confidence < 7/10) ∧
    (mkQ 1 ∈ filteredQuestions .flagged [mkQ 1] ↔
      mkQ 1 ∈ [mkQ 1] ∧ (mkQ 1).flags ≠ []) :=
  C3_filters [mkQ 1] (mkQ 1)

/-- Claim C8: the update operation maps every position to the same record
unless that record's id equals the updated record's id, in which case the
updated record replaces it; length (and hence relative order) is preserved. -/
theorem C8_update_frame (u : Question) (qs : List Question) :
    (handleUpdateQuestion u qs).length = qs.length ∧
    ∀ i : Nat, (handleUpdateQuestion u qs)[i]? =
      (qs[i]?).map (fun q => if q.id = u.id then u else q) := by
  constructor
  · simp [handleUpdateQuestion]
  · intro i
    simp [handleUpdateQuestion]

/-- Claim C9: remove-option is the identity on lists of at most 2 options,
and any sequence of remove-option operations keeps a list that started with
at least 2 options at length at least 2. -/
theorem C9_remove_guard (opts : List OptionRec) (idx : Nat) (ops : List Nat) :
    (opts.length ≤ 2 → handleRemoveOption idx opts = opts) ∧
    (2 ≤ opts.length →
      2 ≤ (ops.foldl (fun os i => handleRemoveOption i os) opts).length) := by
  constructor
  · intro h
    rw [handleRemoveOption, if_pos h]
  · intro h
    induction ops generalizing opts with
    | nil => simpa using h
    | cons i is ih =>
      rw [List.foldl_cons]
      apply ih
      rw [handleRemoveOption]
      by_cases hc : opts.length ≤ 2
      · rw [if_pos hc]; exact h
      · rw [if_neg hc]
        rw [relabelOptions, relabelAux_length, List.length_eraseIdx]
        split <;> omega

/-- Witness for C9_remove_guard: the guard on a two-option list, and a
two-removal sequence on a three-option list. -/
theorem C9_witness :
    handleRemoveOption 0 opts2 = opts2 ∧
    2 ≤ ([0, 1].foldl (fun os i => handleRemoveOption i os) opts3).length :=
  ⟨(C9_remove_guard opts2 0 []).1 (by decide),
   (C9_remove_guard opts3 0 [0, 1]).2 (by decide)⟩

/-! ### Claims C4, C5, C10 -/

/-- A sample question carrying a flag, for the C4 witness. -/
def mkQflagged : Question :=
  { mkQ 3 with flags := [.low_confidence], confidence := 1/2 }

/-- Claim C4: every element of a question's flags list is one of the eleven
values of the closed `QuestionFlag` enumeration, and its string form is one
of the eleven literal flag strings — no free-form flag strings occur. -/
theorem C4_closed_flags (q : Question) (f : QuestionFlag) (h : f ∈ q.flags) :
    (f = .missing_english ∨ f = .missing_hindi ∨ f = .missing_options ∨
      f = .incomplete_options ∨ f = .ambiguous_numbering ∨ f = .complex_table ∨
      f = .unmatched_images ∨ f = .low_confidence ∨ f = .count_mismatch ∨
      f = .needs_image ∨ f = .options_need_images) ∧
    flagToString f ∈ ["missing_english", "missing_hindi", "missing_options",
      "incomplete_options", "ambiguous_numbering", "complex_table",
      "unmatched_images", "low_confidence", "count_mismatch", "needs_image",
      "options_need_images"] := by
  cases f <;> simp [flagToString]

/-- Witness for C4_closed_flags at a concrete flagged question. -/
theorem C4_witness :
    (QuestionFlag.low_confidence = .missing_english ∨
      QuestionFlag.low_confidence = .missing_hindi ∨
      QuestionFlag.low_confidence = .missing_options ∨
      QuestionFlag.low_confidence = .incomplete_options ∨
      QuestionFlag.low_confidence = .ambiguous_numbering ∨
      QuestionFlag.low_confidence = .complex_table ∨
      QuestionFlag.low_confidence = .unmatched_images ∨
      QuestionFlag.low_confidence = .low_confidence ∨
      QuestionFlag.low_confidence = .count_mismatch ∨
      QuestionFlag.low_confidence = .needs_image ∨
      QuestionFlag.low_confidence = .options_need_images) ∧
    flagToString .low_confidence ∈ ["missing_english", "missing_hindi",
      "missing_options", "incomplete_options", "ambiguous_numbering",
      "complex_table", "unmatched_images", "low_confidence", "count_mismatch",
      "needs_image", "options_need_images"] :=
  C4_closed_flags mkQflagged .low_confidence (by decide)

/-- Claim C5: a record produced by the add-question submit never has both
language texts blank after trimming (the submit rejects such input). -/
theorem C5_not_both_blank (form : AddFormData) (options : List OptionRec)
    (qUploads : List ImageData) (oUpload : String → Option String) (nid : Nat)
    (q : Question) (h : handleSubmit form options qUploads oUpload nid = some q) :
    ¬ (jsTrim q.english_text = "" ∧ jsTrim q.hindi_text = "") := by
  rw [handleSubmit] at h
  by_cases h1 : jsTrim form.english_text = "" ∧ jsTrim form.hindi_text = ""
  · rw [if_pos h1] at h
    exact absurd h (by simp)
  · rw [if_neg h1] at h
    by_cases h2 : form.question_type = .multiple_choice ∧
        (options.filter optionHasText).length < 2
    · rw [if_pos h2] at h
      exact absurd h (by simp)
    · rw [if_neg h2] at h
      simp only [Option.some.injEq] at h
      subst h
      simpa using h1

/-- The concrete form data used by the submit witnesses. -/
def cform : AddFormData :=
  { english_text := "What is 2+2?"
    hindi_text := ""
    question_type := .multiple_choice
    answer := "A"
    solution_english := ""
    solution_hindi := ""
    grading := "+4/-1" }

/-- The concrete option state used by the submit witnesses. -/
def copts : List OptionRec :=
  [{ label := "A", english_text := "4", hindi_text := "" },
   { label := "B", english_text := "5", hindi_text := "" },
   { label := "C", english_text := "", hindi_text := "" },
   { label := "D", english_text := "", hindi_text := "" }]

/-- The question the submit produces from `cform`/`copts` with no uploads. -/
def cQ : Question :=
  { id := 5
    english_text := "What is 2+2?"
    hindi_text := ""
    question_type := .multiple_choice
    options := [{ label := "A", english_text := "4", hindi_text := "" },
      { label := "B", english_text := "5", hindi_text := "" }]
    tables := []
    images := []
    answer := some "A"
    solution_english := none
    solution_hindi := none
    grading := some "+4/-1"
    confidence := 1
    flags := [] }

/-- Witness for C5_not_both_blank at a concrete submit. -/
theorem C5_witness : ¬ (jsTrim cQ.english_text = "" ∧ jsTrim cQ.hindi_text = "") :=
  C5_not_both_blank cform copts [] (fun _ => none) 5 cQ (by decide)

/-- Attaching an uploaded image never blanks an option's text. -/
theorem applyOptionImage_hasText (u : Option String) (o : OptionRec)
    (h : optionHasText o = true) : optionHasText (applyOptionImage u o) = true := by
  cases u with
  | none => exact h
  | some s =>
    rw [optionHasText, applyOptionImage]
    simp only [Bool.or_eq_true, decide_eq_true_eq]
    left
    intro he
    have hl := congrArg String.length he
    rw [String.length_append, String.length_append, String.length_append] at hl
    have h8 : ("[Image: " : String).length = 8 := rfl
    have h0 : ("" : String).length = 0 := rfl
    omega

/-- Claim C10: every question the add-question submit produces has confidence
exactly 1, no flags, no tables, only options with some text on at least one
side, and — when it is multiple-choice — at least 2 such options. -/
theorem C10_submit_shape (form : AddFormData) (options : List OptionRec)
    (qUploads : List ImageData) (oUpload : String → Option String) (nid : Nat)
    (q : Question) (h : handleSubmit form options qUploads oUpload nid = some q) :
    q.confidence = 1 ∧ q.flags = [] ∧ q.tables = [] ∧
    q.options.all optionHasText = true ∧
    (q.question_type = .multiple_choice → 2 ≤ q.options.length) := by
  rw [handleSubmit] at h
  by_cases h1 : jsTrim form.english_text = "" ∧ jsTrim form.hindi_text = ""
  · rw [if_pos h1] at h
    exact absurd h (by simp)
  · rw [if_neg h1] at h
    by_cases h2 : form.question_type = .multiple_choice ∧
        (options.filter optionHasText).length < 2
    · rw [if_pos h2] at h
      exact absurd h (by simp)
    · rw [if_neg h2] at h
      simp only [Option.some.injEq] at h
      subst h
      refine ⟨rfl, rfl, rfl, ?_, ?_⟩
      · simp only [List.all_eq_true]
        intro o ho
        exact (List.mem_filter.mp ho).2
      · intro hmc
        simp only [not_and, not_lt] at h2
        have hcount := h2 hmc
        rw [← List.countP_eq_length_filter] at hcount
        have hmono :
            options.countP optionHasText ≤
              (options.map (fun o => applyOptionImage (oUpload o.label) o)).countP
                optionHasText := by
          rw [List.countP_map]
          exact List.countP_mono_left (fun o _ ho => applyOptionImage_hasText _ o ho)
        simp only [List.countP_eq_length_filter] at hcount hmono
        show 2 ≤ ((options.map (fun o => applyOptionImage (oUpload o.label) o)).filter
          optionHasText).length
        omega

/-- Witness for C10_submit_shape at a concrete submit. -/
theorem C10_witness :
    cQ.confidence = 1 ∧ cQ.flags = [] ∧ cQ.tables = [] ∧
    cQ.options.all optionHasText = true ∧ 2 ≤ cQ.options.length := by
  obtain ⟨h1, h2, h3, h4, h5⟩ :=
    C10_submit_shape cform copts [] (fun _ => none) 5 cQ (by decide)
  exact ⟨h1, h2, h3, h4, h5 (by decide)⟩

/-! ### Claims C6 and C7 (spec-modelled pipeline) -/

/-- A sample monolingual record for the C6 witness. -/
def mkMono (i : Nat) (t : String) : MonoRecord :=
  { sequence_index := i, declared_ordinal := none, text := t, options := [] }

/-- Two English records, for the C6 witness. -/
def en2 : List MonoRecord := [mkMono 0 "E1", mkMono 1 "E2"]

/-- One Hindi record, for the C6 witness. -/
def hi1 : List MonoRecord := [mkMono 0 "H1"]

/-- Claim C6: when Hindi has fewer questions than English, the aligner's
output has exactly one record per English question, the whole job carries
`count_mismatch`, and every record beyond the paired positions is emitted
single-language (no Hindi side) carrying `missing_hindi`. -/
theorem C6_no_data_loss (en hi : List MonoRecord) (h : hi.length < en.length) :
    (align en hi).records.length = en.length ∧
    QuestionFlag.count_mismatch ∈ (align en hi).jobFlags ∧
    ∀ i : Nat, hi.length ≤ i → i < en.length →
      ∃ r, (align en hi).records[i]? = some r ∧ r.hindi = none ∧
        QuestionFlag.missing_hindi ∈ r.flags := by
  have hmax : max en.length hi.length = en.length := by omega
  refine ⟨?_, ?_, ?_⟩
  · simp [align, hmax]
  · simp only [align]
    rw [if_pos (by omega)]
    exact List.mem_singleton.mpr rfl
  · intro i hge hlt
    have hhi : hi.get? i = none := List.get?_eq_none.mpr hge
    refine ⟨{ id := i + 1
              english := en.get? i
              hindi := hi.get? i
              merged_options := mergeOptions (((en.get? i).map (·.options)).getD [])
                (((hi.get? i).map (·.options)).getD [])
              flags := recordFlags (en.get? i) (hi.get? i) }, ?_, ?_, ?_⟩
    · simp only [align, List.getElem?_map]
      rw [List.getElem?_range (by omega)]
      rfl
    · exact hhi
    · show QuestionFlag.missing_hindi ∈ recordFlags (en.get? i) (hi.get? i)
      rw [recordFlags, hhi]
      simp
      intro e hRec hEn hHi
      rw [hhi] at hHi
      exact Option.noConfusion hHi

/-- Witness for C6_no_data_loss with English of length 2 and Hindi of
length 1. -/
theorem C6_witness :
    (align en2 hi1).records.length = en2.length ∧
    QuestionFlag.count_mismatch ∈ (align en2 hi1).jobFlags ∧
    ((align en2 hi1).records[1]?).map (·.hindi) = some none := by
  obtain ⟨h1, h2, h3⟩ := C6_no_data_loss en2 hi1 (by decide)
  obtain ⟨r, hr, hh, _⟩ := h3 1 (by decide) (by decide)
  exact ⟨h1, h2, by rw [hr, Option.map_some', hh]⟩

/-- Claim C7: for a clean record (no flags, boundary confidence in (0,1], so
non-zero), adding any single penalized flag and recomputing yields a
strictly smaller confidence than recomputing without it. -/
theorem C7_confidence_monotonic (base : ℚ) (f : QuestionFlag)
    (h0 : 0 < base) (h1 : base ≤ 1) (hf : f ∈ penalizedFlags) :
    computeConfidence base [f] < computeConfidence base [] := by
  have hp : 0 < penalty f ∧ penalty f < 1 := by
    fin_cases hf <;> constructor <;> norm_num [penalty]
  rw [computeConfidence, computeConfidence]
  simp only [List.foldl_cons, List.foldl_nil]
  rw [clamp01, clamp01]
  have hbp0 : 0 ≤ base * penalty f := le_of_lt (mul_pos h0 hp.1)
  have hbp : base * penalty f < base := mul_lt_of_lt_one_right h0 hp.2
  rw [max_eq_right hbp0, max_eq_right (le_of_lt h0), min_eq_right h1,
    min_eq_right (le_trans (le_of_lt hbp) h1)]
  exact hbp

/-- Witness for C7_confidence_monotonic at boundary confidence 1 and the
`missing_options` penalty. -/
theorem C7_witness :
    computeConfidence 1 [QuestionFlag.missing_options] < computeConfidence 1 [] :=
  C7_confidence_monotonic 1 .missing_options (by norm_num) (by norm_num) (by decide)

end QSFormatter
